import Mathlib

/-!
# Transfer-fee computation and harvest/withdraw settlement model

Shallow embedding of the fee-token core of the `token-scripts` repository:
the fee computation duplicated in `check-token-fee-config.ts` and
`transfer-checked.ts`, the pre-flight balance checks and instruction
construction of those two scripts, config loading/validation from
`loadTokenConfig`, and the batch harvest / withdraw orchestration of the
harvest script (`harvestFeesToMint`, `withdrawFeesFromMint`).

JavaScript `BigInt` arithmetic on non-negative values is embedded as `ℕ`
(`BigInt` is arbitrary precision and `/` truncates toward zero, which on
non-negative operands is floor division, i.e. `Nat.div`).
-/

namespace TokenScripts

/-! ## Fee configuration and fee computation -/

/-- Transfer-fee parameters read from the mint
(`transferFeeConfig.newerTransferFee` in the scripts):
`feeBasisPoints` is the rate (10000 = 100%), `maximumFee` the cap in raw
base units (`0` is the on-chain convention for "uncapped"). -/
structure FeeConfig where
  feeBasisPoints : ℕ
  maximumFee : ℕ
deriving Repr, DecidableEq

/-- Fee computation as written (identically) in
`check-token-fee-config.ts` lines 360–373 and `transfer-checked.ts`
lines 194–207:

```js
const numerator = amount * BigInt(feeBasisPoints);
const denominator = BigInt(10000);
fee = numerator / denominator;
if (maxFee > BigInt(0) && fee > maxFee) { fee = maxFee; }
```
-/
def computeFee (amount : ℕ) (config : FeeConfig) : ℕ :=
  let numerator := amount * config.feeBasisPoints
  let fee := numerator / 10000
  if 0 < config.maximumFee ∧ config.maximumFee < fee then config.maximumFee else fee

/-- The fee as the specification words it: the exact rational
`grossAmount * feeBasisPoints / 10000`, floored (truncating, never
rounding up), then capped at `maximumFee` when `maximumFee > 0` and the
floored quotient exceeds it.  Stated with `Nat.floor` over `ℚ` so that
"floor of the exact quotient" is independent of `Nat` division. -/
def computeFeeSpec (amount : ℕ) (config : FeeConfig) : ℕ :=
  let raw : ℕ := Nat.floor ((amount * config.feeBasisPoints : ℚ) / 10000)
  if 0 < config.maximumFee ∧ config.maximumFee < raw then config.maximumFee else raw

theorem computeFee_raw_eq_floor (amount bp : ℕ) :
    amount * bp / 10000 = Nat.floor ((amount * bp : ℚ) / 10000) := by
  have h := Nat.floor_div_eq_div (α := ℚ) (amount * bp) 10000
  rw [← h]
  norm_num

theorem computeFee_eq_spec (amount : ℕ) (config : FeeConfig) :
    computeFee amount config = computeFeeSpec amount config := by
  unfold computeFee computeFeeSpec
  rw [← computeFee_raw_eq_floor]

/-! ## Pre-flight balance checks and instruction construction -/

/-- Pre-flight balance check of `check-token-fee-config.ts` line 378:
`if (sourceAccount.amount < (amount + fee)) { ... exit(1); }` —
the transfer proceeds only when the source balance covers the gross
amount plus the computed fee. -/
def sufficientBalanceWithFee (sourceBalance amount fee : ℕ) : Bool :=
  if sourceBalance < amount + fee then false else true

/-- Pre-flight balance check of `transfer-checked.ts` lines 135–138:
`if (sourceAccount.amount < amount) { ... exit(1); }` —
only the gross amount is required; the fee is not part of this check. -/
def sufficientBalanceAmountOnly (sourceBalance amount : ℕ) : Bool :=
  if sourceBalance < amount then false else true

/-- Local (pre-submission) failure of a transfer script. -/
inductive TransferError
  | insufficientFunds
deriving Repr, DecidableEq

/-- The amount/fee payload of the `createTransferCheckedWithFeeInstruction`
call the scripts add to the transaction. -/
structure TransferCheckedWithFeeIx where
  amount : ℕ
  fee : ℕ
deriving Repr, DecidableEq

/-- Transfer construction path of `check-token-fee-config.ts`
(lines 352–400): when the mint has a fee config, the fee is computed
locally, the balance is required to cover `amount + fee` (otherwise the
script exits before submitting anything), and the instruction is built
with the computed fee passed explicitly; without a fee config the fee
stays `BigInt(0)`. -/
def buildTransferWithExplicitFee (sourceBalance amount : ℕ) (config : Option FeeConfig) :
    Except TransferError TransferCheckedWithFeeIx :=
  match config with
  | none => .ok ⟨amount, 0⟩
  | some cfg =>
    let fee := computeFee amount cfg
    if sourceBalance < amount + fee then .error .insufficientFunds
    else .ok ⟨amount, fee⟩

/-- Transfer construction path of `transfer-checked.ts` (lines 135–228):
the pre-flight check requires only `sourceBalance >= amount`; the fee is
computed and logged but the instruction is built with fee parameter
`BigInt(0)` ("Let the program calculate the fee"), for any fee config. -/
def buildTransferProgramFee (sourceBalance amount : ℕ)
    (_config : Option FeeConfig) : Except TransferError TransferCheckedWithFeeIx :=
  if sourceBalance < amount then .error .insufficientFunds
  else .ok ⟨amount, 0⟩

/-! ## Config loading (`loadTokenConfig`, src/unnamed/part_000) -/

/-- The fields of the JSON token-config file before validation; `none`
stands for an absent (`undefined`) field. -/
structure RawTokenConfig where
  name : Option String
  symbol : Option String
  decimals : Option ℤ
  initialSupply : Option ℤ
  feeBasisPoints : Option ℤ
  maxFee : Option ℤ
deriving Repr, DecidableEq

/-- A loaded token configuration (the `TokenConfig` interface). -/
structure TokenConfig where
  name : String
  symbol : String
  decimals : ℤ
  initialSupply : ℤ
  feeBasisPoints : ℤ
  maxFee : ℤ
deriving Repr, DecidableEq

/-- Validation failures raised by `loadTokenConfig`. -/
inductive ConfigError
  | nameRequired
  | symbolRequired
  | decimalsRequired
  | initialSupplyRequired
deriving Repr, DecidableEq

/-- `loadTokenConfig` validation (src/unnamed/part_000 lines 28–53):
`!config.name` / `!config.symbol` fail on an absent or empty string
(JavaScript falsiness); `decimals` and `initialSupply` fail only when
`undefined`; `feeBasisPoints` and `maxFee` are defaulted with `|| 0`
(absent or `0` becomes `0`, every other value — including values above
10000 or below 0 — passes through unchanged). -/
def loadTokenConfig (raw : RawTokenConfig) : Except ConfigError TokenConfig :=
  if raw.name = none ∨ raw.name = some "" then .error .nameRequired
  else if raw.symbol = none ∨ raw.symbol = some "" then .error .symbolRequired
  else if raw.decimals = none then .error .decimalsRequired
  else if raw.initialSupply = none then .error .initialSupplyRequired
  else .ok
    { name := raw.name.getD ""
      symbol := raw.symbol.getD ""
      decimals := raw.decimals.getD 0
      initialSupply := raw.initialSupply.getD 0
      feeBasisPoints := raw.feeBasisPoints.getD 0
      maxFee := raw.maxFee.getD 0 }

/-! ## Batch harvest (`harvestFeesToMint`, src/unnamed/part_012) -/

/-- lodash `chunk(l, size)`: consecutive slices of `size` elements (the
last one possibly shorter); `chunk(l, 0)` is `[]`. -/
def chunkList {α : Type*} (l : List α) (size : ℕ) : List (List α) :=
  match size, l with
  | 0, _ => []
  | _ + 1, [] => []
  | n + 1, x :: xs => (x :: xs.take n) :: chunkList (xs.drop n) (n + 1)
termination_by l.length
decreasing_by simp [List.length_drop]; omega

/-- Per-run tally kept by `harvestFeesToMint`: the `successful` / `failed`
account counters. -/
structure HarvestTally where
  successful : ℕ
  failed : ℕ
deriving Repr, DecidableEq

/-- The body run for one batch (src/unnamed/part_012 lines 188–237): the
batch transaction is built, then either simulated (`dryRun`) or sent; in
both modes a thrown error is caught and adds `batch.length` to `failed`,
success adds `batch.length` to `successful`.  The external outcome
(simulation error / send rejection) is abstracted as `fails`. -/
def runHarvestBatch (dryRun : Bool) (fails : Bool) (batchLen : ℕ)
    (t : HarvestTally) : HarvestTally :=
  if dryRun then
    if fails then { t with failed := t.failed + batchLen }
    else { t with successful := t.successful + batchLen }
  else
    if fails then { t with failed := t.failed + batchLen }
    else { t with successful := t.successful + batchLen }

/-- Tally computation of `harvestFeesToMint` (src/unnamed/part_012
lines 167–255): the account list is chunked into batches of `batchSize`,
the batches are processed in groups of `concurrency`
(`batches.slice(i, i + concurrency)` for `i = 0, c, 2c, ...`), and each
batch adds its length to exactly one counter.  `batchFails` gives the
external per-batch outcome, indexed by the batch's global index. -/
def harvestFeesToMint {α : Type*} (tokenAccounts : List α)
    (batchSize concurrency : ℕ) (batchFails : ℕ → Bool) (dryRun : Bool) :
    HarvestTally :=
  let batches := (chunkList tokenAccounts batchSize).enum
  let groups := chunkList batches concurrency
  groups.foldl
    (fun t g =>
      g.foldl (fun t ib => runHarvestBatch dryRun (batchFails ib.1) ib.2.length t) t)
    ⟨0, 0⟩

/-- One step of the harvest orchestration trace: run one
concurrency-group of batches (identified by their global indices), or
sleep for `ms` milliseconds. -/
inductive HarvestEvent
  | runGroup (batchIdxs : List ℕ)
  | sleep (ms : ℕ)
deriving Repr, DecidableEq

/-- Orchestration loop of `harvestFeesToMint` (src/unnamed/part_012
lines 184–246), as the trace of events it performs in order:
`for (i = iStart; i < numBatches; i += concurrency)` awaits the group of
batches `i, ..., min(i + concurrency, numBatches) - 1` (`Promise.all`),
then sleeps 1000 ms when `i + concurrency < numBatches` (i.e. between
consecutive groups, not after the last).  With `concurrency = 0` the
source loop would never terminate; the trace is defined as `[]` there
and every theorem assumes `1 ≤ concurrency`. -/
def harvestScheduleFrom : (concurrency numBatches iStart : ℕ) → List HarvestEvent
  | 0, _, _ => []
  | c + 1, n, i =>
    if i < n then
      HarvestEvent.runGroup (List.range' i (min (c + 1) (n - i))) ::
        (if i + (c + 1) < n then
          HarvestEvent.sleep 1000 :: harvestScheduleFrom (c + 1) n (i + (c + 1))
        else harvestScheduleFrom (c + 1) n (i + (c + 1)))
    else []
termination_by _ n i => n - i
decreasing_by all_goals omega

/-- The full orchestration trace of a harvest run over `numBatches`
batches. -/
def harvestSchedule (numBatches concurrency : ℕ) : List HarvestEvent :=
  harvestScheduleFrom concurrency numBatches 0

/-! ## Withdraw (`withdrawFeesFromMint`, src/unnamed/part_012) -/

/-- The state the withdraw operation touches: the mint's withheld pool
(`transferFeeConfig.withheldAmount` re-read from the chain on every
call) and the destination account's balance. -/
structure WithdrawState where
  mintWithheld : ℕ
  destBalance : ℕ
deriving Repr, DecidableEq

/-- What one `withdrawFeesFromMint` call reports. -/
inductive WithdrawOutcome
  | noFeesToWithdraw
  | simulated (amount : ℕ)
  | withdrawn (amount : ℕ)
deriving Repr, DecidableEq

/-- `withdrawFeesFromMint` (src/unnamed/part_012 lines 260–340): reads
the mint's withheld amount; if it is `0`, returns "No withheld fees to
withdraw" without building or submitting any transaction and without
throwing; otherwise builds the withdraw transaction and either simulates
it (`dryRun`, reporting the would-be amount, state unchanged) or sends
it.  The state effect of the sent transaction — modelled from the spec,
§4.3 Withdraw: the ledger's `WithdrawWithheldTokensFromMint` instruction
moves the entire pool to the destination's balance and resets the pool
to 0 (the token program itself is an external collaborator). -/
def withdrawFeesFromMint (st : WithdrawState) (dryRun : Bool) :
    WithdrawOutcome × WithdrawState :=
  if st.mintWithheld = 0 then (.noFeesToWithdraw, st)
  else if dryRun then (.simulated st.mintWithheld, st)
  else (.withdrawn st.mintWithheld, ⟨0, st.destBalance + st.mintWithheld⟩)

/-! ## Helper lemmas -/

theorem chunkList_cons {α : Type*} (x : α) (xs : List α) (n : ℕ) :
    chunkList (x :: xs) (n + 1) = (x :: xs.take n) :: chunkList (xs.drop n) (n + 1) := by
  rw [chunkList]

theorem chunkList_flatten {α : Type*} (n : ℕ) (l : List α) :
    (chunkList l (n + 1)).flatten = l := by
  have H : ∀ (k : ℕ) (l : List α), l.length ≤ k → (chunkList l (n + 1)).flatten = l := by
    intro k
    induction k with
    | zero =>
      intro l hl
      have : l = [] := List.eq_nil_of_length_eq_zero (by omega)
      subst this
      simp [chunkList]
    | succ k ih =>
      intro l hl
      cases l with
      | nil => simp [chunkList]
      | cons x xs =>
        rw [chunkList_cons, List.flatten_cons]
        rw [ih (xs.drop n) (by simp only [List.length_drop]; simp at hl; omega)]
        simp [List.take_append_drop]
  exact H l.length l le_rfl

theorem length_le_of_mem_chunkList {α : Type*} {l : List α} {n : ℕ} {b : List α}
    (hb : b ∈ chunkList l n) : b.length ≤ n := by
  cases n with
  | zero => simp [chunkList] at hb
  | succ n =>
    have H : ∀ (k : ℕ) (l : List α), l.length ≤ k →
        ∀ b ∈ chunkList l (n + 1), b.length ≤ n + 1 := by
      intro k
      induction k with
      | zero =>
        intro l hl b hb
        have : l = [] := List.eq_nil_of_length_eq_zero (by omega)
        subst this
        simp [chunkList] at hb
      | succ k ih =>
        intro l hl b hb
        cases l with
        | nil => simp [chunkList] at hb
        | cons x xs =>
          rw [chunkList_cons] at hb
          rcases List.mem_cons.mp hb with h | h
          · subst h
            simp only [List.length_cons, List.length_take]
            omega
          · exact ih (xs.drop n) (by simp only [List.length_drop]; simp at hl; omega) b h
    exact H l.length l le_rfl b hb

theorem runHarvestBatch_mode_irrelevant :
    runHarvestBatch true = runHarvestBatch false := by
  funext f len t
  simp [runHarvestBatch]

theorem foldl_harvest_sum {α : Type*} (dryRun : Bool) (batchFails : ℕ → Bool)
    (ebs : List (ℕ × List α)) :
    ∀ t : HarvestTally,
      (ebs.foldl (fun t ib => runHarvestBatch dryRun (batchFails ib.1) ib.2.length t) t).successful
        + (ebs.foldl (fun t ib => runHarvestBatch dryRun (batchFails ib.1) ib.2.length t) t).failed
        = t.successful + t.failed + (ebs.map (fun ib => ib.2.length)).sum := by
  induction ebs with
  | nil => intro t; simp
  | cons ib rest ih =>
    intro t
    simp only [List.foldl_cons, List.map_cons, List.sum_cons]
    rw [ih]
    cases dryRun <;> cases hf : batchFails ib.1 <;>
      simp [runHarvestBatch, hf] <;> omega

theorem foldl_harvest_counts {α : Type*} (dryRun : Bool) (batchFails : ℕ → Bool)
    (ebs : List (ℕ × List α)) :
    ∀ t : HarvestTally,
      (ebs.foldl (fun t ib => runHarvestBatch dryRun (batchFails ib.1) ib.2.length t) t).successful
        = t.successful
          + ((ebs.filter (fun ib => !batchFails ib.1)).map (fun ib => ib.2.length)).sum
      ∧ (ebs.foldl (fun t ib => runHarvestBatch dryRun (batchFails ib.1) ib.2.length t) t).failed
        = t.failed
          + ((ebs.filter (fun ib => batchFails ib.1)).map (fun ib => ib.2.length)).sum := by
  induction ebs with
  | nil => intro t; simp
  | cons ib rest ih =>
    intro t
    simp only [List.foldl_cons, List.filter_cons]
    rcases (ih (runHarvestBatch dryRun (batchFails ib.1) ib.2.length t)) with ⟨ihs, ihf⟩
    constructor
    · rw [ihs]
      cases dryRun <;> cases hf : batchFails ib.1 <;>
        simp [runHarvestBatch, hf] <;> omega
    · rw [ihf]
      cases dryRun <;> cases hf : batchFails ib.1 <;>
        simp [runHarvestBatch, hf] <;> omega

theorem enum_batch_length_sum {α : Type*} {batchSize : ℕ} (hb : 1 ≤ batchSize)
    (l : List α) :
    (((chunkList l batchSize).enum).map (fun ib => ib.2.length)).sum = l.length := by
  obtain ⟨k, rfl⟩ : ∃ k, batchSize = k + 1 := ⟨batchSize - 1, by omega⟩
  have h1 : ((chunkList l (k + 1)).enum).map (fun ib : ℕ × List α => ib.2.length)
      = (chunkList l (k + 1)).map List.length := by
    rw [show (fun ib : ℕ × List α => ib.2.length) = List.length ∘ Prod.snd from rfl,
      ← List.map_map, List.enum_map_snd]
  rw [h1, ← List.length_flatten, chunkList_flatten]

/-! ## Claim theorems -/

/-- C1: for every `grossAmount` and every `FeeConfig` with
`feeBasisPoints` in `[0, 10000]`, `computeFee` returns
`floor(grossAmount * feeBasisPoints / 10000)` computed with exact
wide-integer arithmetic (truncating division, never rounding up), and
when `maximumFee > 0` and that quotient exceeds `maximumFee` the result
is `maximumFee` instead. -/
theorem feeComputation_floor_and_cap (amount : ℕ) (config : FeeConfig)
    (h : config.feeBasisPoints ≤ 10000) :
    computeFee amount config = computeFeeSpec amount config
    ∧ (0 < config.maximumFee →
        config.maximumFee < amount * config.feeBasisPoints / 10000 →
        computeFee amount config = config.maximumFee)
    ∧ (¬(0 < config.maximumFee
          ∧ config.maximumFee < amount * config.feeBasisPoints / 10000) →
        computeFee amount config = amount * config.feeBasisPoints / 10000) := by
  refine ⟨computeFee_eq_spec amount config, ?_, ?_⟩
  · intro h1 h2
    simp only [computeFee]
    rw [if_pos ⟨h1, h2⟩]
  · intro h3
    simp only [computeFee]
    rw [if_neg h3]

/-- Witness for C1: `grossAmount = 10000000000`, `feeBasisPoints = 1000`
(10%), `maximumFee = 500000000` — the spec's own worked example. -/
theorem feeComputation_floor_and_cap_witness :
    (1000 : ℕ) ≤ 10000
    ∧ (computeFee 10000000000 ⟨1000, 500000000⟩
        = computeFeeSpec 10000000000 ⟨1000, 500000000⟩
      ∧ (0 < (500000000 : ℕ) →
          (500000000 : ℕ) < 10000000000 * 1000 / 10000 →
          computeFee 10000000000 ⟨1000, 500000000⟩ = 500000000)
      ∧ (¬((0 : ℕ) < 500000000
            ∧ (500000000 : ℕ) < 10000000000 * 1000 / 10000) →
          computeFee 10000000000 ⟨1000, 500000000⟩ = 10000000000 * 1000 / 10000)) :=
  ⟨by decide, feeComputation_floor_and_cap 10000000000 ⟨1000, 500000000⟩ (by decide)⟩

/-- C2: when `maximumFee = 0` the computed fee is never capped:
`computeFee` returns the full `floor(grossAmount * feeBasisPoints / 10000)`,
even at `feeBasisPoints = 10000` (100%) with a large `grossAmount`;
`maximumFee = 0` means uncapped, not a cap of zero. -/
theorem maximumFee_zero_uncapped (amount : ℕ) (config : FeeConfig)
    (h : config.maximumFee = 0) :
    computeFee amount config = amount * config.feeBasisPoints / 10000
    ∧ computeFee amount config
        = Nat.floor ((amount * config.feeBasisPoints : ℚ) / 10000)
    ∧ computeFee amount ⟨10000, 0⟩ = amount := by
  refine ⟨?_, ?_, ?_⟩
  · simp [computeFee, h]
  · rw [← computeFee_raw_eq_floor]
    simp [computeFee, h]
  · simp only [computeFee]
    norm_num

/-- Witness for C2: a large gross amount at a 100% rate with
`maximumFee = 0` yields the full uncapped fee. -/
theorem maximumFee_zero_uncapped_witness :
    (FeeConfig.mk 10000 0).maximumFee = 0
    ∧ (computeFee 1000000000000 ⟨10000, 0⟩ = 1000000000000 * 10000 / 10000
      ∧ computeFee 1000000000000 ⟨10000, 0⟩
          = Nat.floor ((1000000000000 * (FeeConfig.mk 10000 0).feeBasisPoints : ℚ) / 10000)
      ∧ computeFee 1000000000000 ⟨10000, 0⟩ = 1000000000000) :=
  ⟨rfl, maximumFee_zero_uncapped 1000000000000 ⟨10000, 0⟩ rfl⟩

/-- C3 counterexample: the claim says the pre-flight insufficient-funds
check before a fee-bearing transfer is true iff
`sourceBalance >= grossAmount + fee`, and refuses the transfer when
false.  In `transfer-checked.ts` (lines 135–138) the check is only
`sourceBalance >= grossAmount`: at `sourceBalance = 100`,
`grossAmount = 100`, `feeBasisPoints = 400` the fee is 4, the balance is
below `grossAmount + fee`, yet the check passes and the transfer is
built and submitted. -/
theorem preflight_check_counterexample :
    sufficientBalanceAmountOnly 100 100 = true
    ∧ computeFee 100 ⟨400, 0⟩ = 4
    ∧ 100 < 100 + computeFee 100 ⟨400, 0⟩
    ∧ buildTransferProgramFee 100 100 (some ⟨400, 0⟩)
        = .ok ⟨100, 0⟩ := by
  refine ⟨rfl, rfl, by norm_num [computeFee], rfl⟩

/-- C3 amended: in `check-token-fee-config.ts` the pre-flight check is
`sourceBalance >= grossAmount + fee` (false exactly one raw unit below
that threshold) and a failing check refuses the transfer locally with
an insufficient-funds error before submission; in `transfer-checked.ts`,
however, the pre-flight check only requires
`sourceBalance >= grossAmount`, ignoring the fee. -/
theorem preflight_check_amended (sourceBalance amount fee : ℕ) (cfg : FeeConfig) :
    (sufficientBalanceWithFee sourceBalance amount fee = true
      ↔ amount + fee ≤ sourceBalance)
    ∧ sufficientBalanceWithFee (amount + fee) amount fee = true
    ∧ (0 < amount + fee →
        sufficientBalanceWithFee (amount + fee - 1) amount fee = false)
    ∧ (buildTransferWithExplicitFee sourceBalance amount (some cfg)
          = .error .insufficientFunds
        ↔ sourceBalance < amount + computeFee amount cfg)
    ∧ (sufficientBalanceAmountOnly sourceBalance amount = true
        ↔ amount ≤ sourceBalance) := by
  refine ⟨?_, ?_, ?_, ?_, ?_⟩
  · simp [sufficientBalanceWithFee]
  · simp [sufficientBalanceWithFee]
  · intro h
    simp [sufficientBalanceWithFee]
    omega
  · simp only [buildTransferWithExplicitFee]
    by_cases h : sourceBalance < amount + computeFee amount cfg
    · simp [h]
    · simp [h]
  · simp [sufficientBalanceAmountOnly]

/-- Witness for C3 amended, at `sourceBalance = 104`, `amount = 100`,
`fee = 4`. -/
theorem preflight_check_amended_witness :
    (sufficientBalanceWithFee 104 100 4 = true ↔ 100 + 4 ≤ 104)
    ∧ sufficientBalanceWithFee (100 + 4) 100 4 = true
    ∧ (0 < 100 + 4 → sufficientBalanceWithFee (100 + 4 - 1) 100 4 = false)
    ∧ (buildTransferWithExplicitFee 104 100 (some ⟨400, 0⟩)
          = .error .insufficientFunds
        ↔ 104 < 100 + computeFee 100 ⟨400, 0⟩)
    ∧ (sufficientBalanceAmountOnly 104 100 = true ↔ 100 ≤ 104) :=
  preflight_check_amended 104 100 4 ⟨400, 0⟩

/-- C4: Withdraw invoked on an empty withheld pool is a no-op reporting
"nothing to withdraw" — no transaction is built or submitted, the caller
does not fail, and the state is unchanged; after a successful committed
Withdraw the pool is 0, so an immediately repeated Withdraw reports
"nothing to withdraw" and leaves the destination balance unchanged. -/
theorem withdraw_empty_pool_noop (st : WithdrawState) (dest : ℕ) (dryRun : Bool) :
    withdrawFeesFromMint ⟨0, dest⟩ dryRun = (.noFeesToWithdraw, ⟨0, dest⟩)
    ∧ (withdrawFeesFromMint st false).2.mintWithheld = 0
    ∧ withdrawFeesFromMint (withdrawFeesFromMint st false).2 dryRun
        = (.noFeesToWithdraw, (withdrawFeesFromMint st false).2) := by
  refine ⟨by simp [withdrawFeesFromMint], ?_, ?_⟩
  · by_cases h : st.mintWithheld = 0 <;> simp [withdrawFeesFromMint, h]
  · by_cases h : st.mintWithheld = 0 <;> simp [withdrawFeesFromMint, h]

/-- C7 counterexample: the claim says FeeConfig creation fails with
`InvalidParameter` whenever `feeBasisPoints` is outside `[0, 10000]` or
`maximumFee < 0`.  `loadTokenConfig` (src/unnamed/part_000) performs no
range validation at all: `feeBasisPoints = 20000` and even negative
values are accepted and returned unchanged. -/
theorem feeConfig_validation_counterexample :
    loadTokenConfig ⟨some "Test", some "TST", some 9, some 1000000, some 20000, some 0⟩
      = .ok ⟨"Test", "TST", 9, 1000000, 20000, 0⟩
    ∧ ¬((20000 : ℤ) ≤ 10000)
    ∧ loadTokenConfig ⟨some "Test", some "TST", some 9, some 1000000, some (-5), some (-7)⟩
      = .ok ⟨"Test", "TST", 9, 1000000, -5, -7⟩
    ∧ (-5 : ℤ) < 0 ∧ (-7 : ℤ) < 0 := by
  refine ⟨rfl, by decide, rfl, by decide, by decide⟩

/-- C7 amended: config loading validates only the presence of `name`,
`symbol`, `decimals` and `initialSupply` (JavaScript-falsy `name` /
`symbol` also fail); whenever those are present it succeeds regardless
of the fee fields, passing `feeBasisPoints` and `maxFee` through
unchanged (absent fee fields default to 0) — no `[0, 10000]` range check
and no non-negativity check is performed locally. -/
theorem feeConfig_no_range_validation (raw : RawTokenConfig)
    (hname : raw.name ≠ none) (hname2 : raw.name ≠ some "")
    (hsym : raw.symbol ≠ none) (hsym2 : raw.symbol ≠ some "")
    (hdec : raw.decimals ≠ none) (hsup : raw.initialSupply ≠ none) :
    loadTokenConfig raw
      = .ok
          { name := raw.name.getD ""
            symbol := raw.symbol.getD ""
            decimals := raw.decimals.getD 0
            initialSupply := raw.initialSupply.getD 0
            feeBasisPoints := raw.feeBasisPoints.getD 0
            maxFee := raw.maxFee.getD 0 } := by
  simp only [loadTokenConfig]
  rw [if_neg (by simp [hname, hname2]), if_neg (by simp [hsym, hsym2]),
    if_neg hdec, if_neg hsup]

/-- Witness for C7 amended: an out-of-range `feeBasisPoints = 20000`
passes through `loadTokenConfig` untouched. -/
theorem feeConfig_no_range_validation_witness :
    loadTokenConfig ⟨some "Tok", some "TOK", some 6, some 42, some 20000, some (-1)⟩
      = .ok
          { name := (some "Tok").getD ""
            symbol := (some "TOK").getD ""
            decimals := (some (6 : ℤ)).getD 0
            initialSupply := (some (42 : ℤ)).getD 0
            feeBasisPoints := (some (20000 : ℤ)).getD 0
            maxFee := (some (-1 : ℤ)).getD 0 } :=
  feeConfig_no_range_validation ⟨some "Tok", some "TOK", some 6, some 42, some 20000, some (-1)⟩
    (by simp) (by simp) (by simp) (by simp) (by simp) (by simp)

/-- C9 counterexample: the claim says every fee-bearing transfer built
by the scripts delivers the locally computed fee as the withheld-fee
parameter.  `transfer-checked.ts` (lines 215–228) passes `BigInt(0)`
("Let the program calculate the fee"): with a 4% fee config and
`grossAmount = 1000000` the locally computed fee is 40000, but the
instruction's fee parameter is 0. -/
theorem instruction_fee_counterexample :
    buildTransferProgramFee 2000000 1000000 (some ⟨400, 0⟩) = .ok ⟨1000000, 0⟩
    ∧ computeFee 1000000 ⟨400, 0⟩ = 40000
    ∧ (0 : ℕ) ≠ 40000 := by
  refine ⟨rfl, rfl, by decide⟩

/-- C9 amended: every successfully built transfer carries the full
`grossAmount` as the instruction amount; `check-token-fee-config.ts`
additionally delivers the locally computed `computeFee` as the explicit
withheld-fee parameter, while `transfer-checked.ts` delivers fee
parameter 0, delegating the fee computation to the on-chain program. -/
theorem instruction_fee_delivery (sourceBalance amount : ℕ) (cfg : FeeConfig) :
    (∀ ix, buildTransferWithExplicitFee sourceBalance amount (some cfg) = .ok ix →
      ix.amount = amount ∧ ix.fee = computeFee amount cfg)
    ∧ (∀ ix, buildTransferProgramFee sourceBalance amount (some cfg) = .ok ix →
      ix.amount = amount ∧ ix.fee = 0) := by
  constructor
  · intro ix hix
    simp only [buildTransferWithExplicitFee] at hix
    by_cases h : sourceBalance < amount + computeFee amount cfg
    · simp [h] at hix
    · simp [h] at hix
      subst hix
      exact ⟨rfl, rfl⟩
  · intro ix hix
    simp only [buildTransferProgramFee] at hix
    by_cases h : sourceBalance < amount
    · simp [h] at hix
    · simp [h] at hix
      subst hix
      exact ⟨rfl, rfl⟩

/-- Witness for C9 amended: at `sourceBalance = 2000000`,
`amount = 1000000`, 4% fee config, the explicit-fee path yields
`(1000000, 40000)` and the program-fee path yields `(1000000, 0)`. -/
theorem instruction_fee_delivery_witness :
    ((1000000 : ℕ), (40000 : ℕ)) = (1000000, 40000)
    ∧ (TransferCheckedWithFeeIx.mk 1000000 40000).amount = 1000000
    ∧ (TransferCheckedWithFeeIx.mk 1000000 40000).fee = computeFee 1000000 ⟨400, 0⟩
    ∧ (TransferCheckedWithFeeIx.mk 1000000 0).amount = 1000000
    ∧ (TransferCheckedWithFeeIx.mk 1000000 0).fee = 0 := by
  have h1 := (instruction_fee_delivery 2000000 1000000 ⟨400, 0⟩).1 ⟨1000000, 40000⟩ rfl
  have h2 := (instruction_fee_delivery 2000000 1000000 ⟨400, 0⟩).2 ⟨1000000, 0⟩ rfl
  exact ⟨rfl, h1.1, h1.2, h2.1, h2.2⟩

/-- C5: during batch Harvest, the failure of one batch neither aborts
nor rolls back any sibling batch: a failing batch contributes exactly
its own number of accounts to `failed`, every other batch still runs and
is counted in `successful`, and the run always ends with both explicit
counters (stated as an exact characterization of both counters as sums
over the failing / non-failing batches). -/
theorem harvest_batch_failure_isolation {α : Type} (tokenAccounts : List α)
    (batchSize concurrency : ℕ) (batchFails : ℕ → Bool) (dryRun : Bool)
    (hc : 1 ≤ concurrency) :
    (harvestFeesToMint tokenAccounts batchSize concurrency batchFails dryRun).failed
      = (((chunkList tokenAccounts batchSize).enum.filter
            (fun ib => batchFails ib.1)).map (fun ib => ib.2.length)).sum
    ∧ (harvestFeesToMint tokenAccounts batchSize concurrency batchFails dryRun).successful
      = (((chunkList tokenAccounts batchSize).enum.filter
            (fun ib => !batchFails ib.1)).map (fun ib => ib.2.length)).sum := by
  obtain ⟨m, rfl⟩ : ∃ m, concurrency = m + 1 := ⟨concurrency - 1, by omega⟩
  simp only [harvestFeesToMint]
  rw [← List.foldl_flatten, chunkList_flatten]
  rcases foldl_harvest_counts dryRun batchFails
    ((chunkList tokenAccounts batchSize).enum) ⟨0, 0⟩ with ⟨hs, hf⟩
  exact ⟨by rw [hf]; simp, by rw [hs]; simp⟩

/-- Witness for C5: 25 accounts in 3 batches of size 10 (10, 10, 5),
with the second batch (index 1) failing. -/
theorem harvest_batch_failure_isolation_witness :
    (1 : ℕ) ≤ 2
    ∧ ((harvestFeesToMint (List.range 25) 10 2 (fun i => i == 1) false).failed
        = (((chunkList (List.range 25) 10).enum.filter
              (fun ib => ib.1 == 1)).map (fun ib => ib.2.length)).sum
      ∧ (harvestFeesToMint (List.range 25) 10 2 (fun i => i == 1) false).successful
        = (((chunkList (List.range 25) 10).enum.filter
              (fun ib => !(ib.1 == 1))).map (fun ib => ib.2.length)).sum) :=
  ⟨by decide,
    harvest_batch_failure_isolation (List.range 25) 10 2 (fun i => i == 1) false
      (by decide)⟩

/-- C10: for every input account list, `batchSize >= 1` and
`concurrency >= 1`, the harvest tally satisfies
`successful + failed = length of the input list`, in both dry-run and
committed mode: the batches partition the list exactly and every
account's batch lands in exactly one of the two counters. -/
theorem harvest_tally_conservation {α : Type} (tokenAccounts : List α)
    (batchSize concurrency : ℕ) (batchFails : ℕ → Bool) (dryRun : Bool)
    (hb : 1 ≤ batchSize) (hc : 1 ≤ concurrency) :
    (harvestFeesToMint tokenAccounts batchSize concurrency batchFails dryRun).successful
      + (harvestFeesToMint tokenAccounts batchSize concurrency batchFails dryRun).failed
      = tokenAccounts.length := by
  obtain ⟨m, rfl⟩ : ∃ m, concurrency = m + 1 := ⟨concurrency - 1, by omega⟩
  simp only [harvestFeesToMint]
  rw [← List.foldl_flatten, chunkList_flatten]
  rw [foldl_harvest_sum dryRun batchFails ((chunkList tokenAccounts batchSize).enum) ⟨0, 0⟩]
  simp [enum_batch_length_sum hb]

/-- Witness for C10: 25 accounts, batch size 10, concurrency 2, batch 1
failing, committed mode: `successful + failed = 25`. -/
theorem harvest_tally_conservation_witness :
    (1 : ℕ) ≤ 10 ∧ (1 : ℕ) ≤ 2
    ∧ (harvestFeesToMint (List.range 25) 10 2 (fun i => i == 1) false).successful
      + (harvestFeesToMint (List.range 25) 10 2 (fun i => i == 1) false).failed
      = (List.range 25).length :=
  ⟨by decide, by decide,
    harvest_tally_conservation (List.range 25) 10 2 (fun i => i == 1) false
      (by decide) (by decide)⟩

/-- C8: in dry-run mode, Harvest and Withdraw perform the same
computation and validation as committed mode but commit no state change,
reporting results identical in shape: the harvest tally is equal in both
modes under the same per-batch outcomes (the batch transaction is built
once, before the mode branch), and a dry-run Withdraw leaves the state
unchanged while reporting exactly the amount a committed Withdraw would
move. -/
theorem dry_run_parity {α : Type} (tokenAccounts : List α)
    (batchSize concurrency : ℕ) (batchFails : ℕ → Bool) (st : WithdrawState)
    (h : st.mintWithheld ≠ 0) :
    harvestFeesToMint tokenAccounts batchSize concurrency batchFails true
      = harvestFeesToMint tokenAccounts batchSize concurrency batchFails false
    ∧ (withdrawFeesFromMint st true).2 = st
    ∧ (withdrawFeesFromMint st true).1 = .simulated st.mintWithheld
    ∧ (withdrawFeesFromMint st false).1 = .withdrawn st.mintWithheld
    ∧ (withdrawFeesFromMint st false).2.destBalance
        = st.destBalance + st.mintWithheld := by
  refine ⟨?_, ?_, ?_, ?_, ?_⟩
  · simp only [harvestFeesToMint, runHarvestBatch_mode_irrelevant]
  · by_cases h0 : st.mintWithheld = 0 <;> simp [withdrawFeesFromMint, h0]
  · simp [withdrawFeesFromMint, h]
  · simp [withdrawFeesFromMint, h]
  · simp [withdrawFeesFromMint, h]

/-- Witness for C8: 5 accounts in batches of 2 with no failures, and a
withdraw state with a pool of 12000. -/
theorem dry_run_parity_witness :
    (WithdrawState.mk 12000 7).mintWithheld ≠ 0
    ∧ (harvestFeesToMint (List.range 5) 2 2 (fun _ => false) true
        = harvestFeesToMint (List.range 5) 2 2 (fun _ => false) false
      ∧ (withdrawFeesFromMint ⟨12000, 7⟩ true).2 = ⟨12000, 7⟩
      ∧ (withdrawFeesFromMint ⟨12000, 7⟩ true).1
          = .simulated (WithdrawState.mk 12000 7).mintWithheld
      ∧ (withdrawFeesFromMint ⟨12000, 7⟩ false).1
          = .withdrawn (WithdrawState.mk 12000 7).mintWithheld
      ∧ (withdrawFeesFromMint ⟨12000, 7⟩ false).2.destBalance
          = (WithdrawState.mk 12000 7).destBalance
            + (WithdrawState.mk 12000 7).mintWithheld) :=
  ⟨by decide,
    dry_run_parity (List.range 5) 2 2 (fun _ => false) ⟨12000, 7⟩ (by decide)⟩

theorem chunkList_nil {α : Type*} (n : ℕ) : chunkList ([] : List α) n = [] := by
  cases n with
  | zero => rw [chunkList]
  | succ n => rw [chunkList]

theorem take_range' (k : ℕ) : ∀ c s : ℕ,
    (List.range' s k).take c = List.range' s (min c k) := by
  induction k with
  | zero => intro c s; simp
  | succ k ih =>
    intro c s
    cases c with
    | zero => simp
    | succ c =>
      rw [List.range'_succ, List.take_succ_cons, ih c (s + 1)]
      have e : min (c + 1) (k + 1) = min c k + 1 := by omega
      rw [e, List.range'_succ]

theorem drop_range' (k : ℕ) : ∀ c s : ℕ,
    (List.range' s k).drop c = List.range' (s + c) (k - c) := by
  induction k with
  | zero => intro c s; simp
  | succ k ih =>
    intro c s
    cases c with
    | zero => simp
    | succ c =>
      rw [List.range'_succ, List.drop_succ_cons, ih c (s + 1)]
      congr 1 <;> omega

theorem intersperse_cons_of_ne_nil {α : Type*} (sep a : α) (l : List α)
    (h : l ≠ []) :
    List.intersperse sep (a :: l) = a :: sep :: List.intersperse sep l := by
  cases l with
  | nil => exact absurd rfl h
  | cons b t => rw [List.intersperse_cons_cons]

theorem harvestScheduleFrom_eq_intersperse (m n : ℕ) :
    ∀ (k i : ℕ), n - i ≤ k →
      harvestScheduleFrom (m + 1) n i
        = List.intersperse (HarvestEvent.sleep 1000)
            ((chunkList (List.range' i (n - i)) (m + 1)).map HarvestEvent.runGroup) := by
  intro k
  induction k with
  | zero =>
    intro i h
    have hni : ¬ i < n := by omega
    have h0 : n - i = 0 := by omega
    rw [harvestScheduleFrom.eq_2, if_neg hni, h0]
    simp [chunkList_nil]
  | succ k ih =>
    intro i h
    by_cases hin : i < n
    · obtain ⟨j, hj⟩ : ∃ j, n - i = j + 1 := ⟨n - i - 1, by omega⟩
      rw [harvestScheduleFrom.eq_2, if_pos hin, hj]
      rw [List.range'_succ, chunkList_cons, take_range', drop_range']
      have e0 : min (m + 1) (j + 1) = min m j + 1 := by omega
      rw [e0, List.range'_succ]
      by_cases hnext : i + (m + 1) < n
      · rw [if_pos hnext]
        have hjm : 1 ≤ j - m := by omega
        simp only [List.map_cons]
        rw [intersperse_cons_of_ne_nil]
        · have e1 : i + 1 + m = i + (m + 1) := by omega
          have e2 : j - m = n - (i + (m + 1)) := by omega
          rw [e1, e2, ih (i + (m + 1)) (by omega)]
        · obtain ⟨r, hr⟩ : ∃ r, j - m = r + 1 := ⟨j - m - 1, by omega⟩
          rw [hr, List.range'_succ, chunkList_cons]
          simp
      · rw [if_neg hnext]
        rw [harvestScheduleFrom.eq_2, if_neg (by omega)]
        have e2 : j - m = 0 := by omega
        rw [e2]
        simp [chunkList_nil]
    · have h0 : n - i = 0 := by omega
      rw [harvestScheduleFrom.eq_2, if_neg hin, h0]
      simp [chunkList_nil]

/-- C6: Harvest splits the input account list into batches of at most
`batchSize` and processes them in concurrency-groups of at most
`concurrency` batches; the orchestration trace runs the groups strictly
in order — every batch of group N is awaited before any batch of group
N+1 starts — with a 1000 ms sleep between consecutive groups (and none
after the last): the trace is exactly the group list interspersed with
the sleep event. -/
theorem harvest_grouping_schedule {α : Type} (tokenAccounts : List α)
    (batchSize concurrency : ℕ) (hb : 1 ≤ batchSize) (hc : 1 ≤ concurrency) :
    (chunkList tokenAccounts batchSize).flatten = tokenAccounts
    ∧ (∀ b ∈ chunkList tokenAccounts batchSize, b.length ≤ batchSize)
    ∧ harvestSchedule (chunkList tokenAccounts batchSize).length concurrency
        = List.intersperse (HarvestEvent.sleep 1000)
            ((chunkList (List.range (chunkList tokenAccounts batchSize).length)
                concurrency).map HarvestEvent.runGroup)
    ∧ (∀ g ∈ chunkList (List.range (chunkList tokenAccounts batchSize).length)
          concurrency, g.length ≤ concurrency)
    ∧ (chunkList (List.range (chunkList tokenAccounts batchSize).length)
          concurrency).flatten
        = List.range (chunkList tokenAccounts batchSize).length := by
  obtain ⟨mb, rfl⟩ : ∃ k, batchSize = k + 1 := ⟨batchSize - 1, by omega⟩
  obtain ⟨mc, rfl⟩ : ∃ k, concurrency = k + 1 := ⟨concurrency - 1, by omega⟩
  refine ⟨chunkList_flatten mb tokenAccounts,
    fun b hb' => length_le_of_mem_chunkList hb', ?_,
    fun g hg => length_le_of_mem_chunkList hg, chunkList_flatten mc _⟩
  unfold harvestSchedule
  rw [List.range_eq_range']
  have h := harvestScheduleFrom_eq_intersperse mc
    (chunkList tokenAccounts (mb + 1)).length
    (chunkList tokenAccounts (mb + 1)).length 0 (by omega)
  simpa using h

/-- Witness for C6: 25 accounts, batch size 10 (3 batches), concurrency
3. -/
theorem harvest_grouping_schedule_witness :
    (1 : ℕ) ≤ 10 ∧ (1 : ℕ) ≤ 3
    ∧ ((chunkList (List.range 25) 10).flatten = List.range 25
      ∧ (∀ b ∈ chunkList (List.range 25) 10, b.length ≤ 10)
      ∧ harvestSchedule (chunkList (List.range 25) 10).length 3
          = List.intersperse (HarvestEvent.sleep 1000)
              ((chunkList (List.range (chunkList (List.range 25) 10).length) 3).map
                HarvestEvent.runGroup)
      ∧ (∀ g ∈ chunkList (List.range (chunkList (List.range 25) 10).length) 3,
          g.length ≤ 3)
      ∧ (chunkList (List.range (chunkList (List.range 25) 10).length) 3).flatten
          = List.range (chunkList (List.range 25) 10).length) :=
  ⟨by decide, by decide,
    harvest_grouping_schedule (List.range 25) 10 3 (by decide) (by decide)⟩

end TokenScripts
